import Mathlib

/-!
Verification of `tools/statvar_importer/schema/schema_spell_checker.py`.

The Python module is shallowly embedded below.  Python strings are modelled by
`String` (with most character-level operations performed on `String.data`,
the underlying `List Char`), Python sets of words by `List String` with
membership semantics (deduplication is explicit where the code relies on it),
and Python `None`-able arguments by `Option`.  External collaborators that are
not part of this file's source (`property_value_utils.is_valid_property`,
`mcf_file_util.strip_namespace`, the `pyspellchecker` dictionary backend, and
file access) are abstracted as explicit function parameters, following the
interfaces described for them.
-/

/-- `list_begins needle hay` holds when `needle` is an initial segment of
`hay`; used to model Python substring search. -/
def list_begins : List Char → List Char → Bool
  | [], _ => true
  | _ :: _, [] => false
  | a :: as, b :: bs => if a = b then list_begins as bs else false

/-- Models Python's `needle in hay` substring test on character lists. -/
def has_substring (needle : List Char) : List Char → Bool
  | [] => needle.isEmpty
  | c :: rest => list_begins needle (c :: rest) || has_substring needle rest

/-- A regex word character (`\w` over ASCII): letter, digit or underscore. -/
def word_char (c : Char) : Bool :=
  c.isAlphanum || c = '_'

/-- Whether the regex `E[0-9]+\b` matches starting exactly at the head of the
list: a literal `E`, then a maximal nonempty digit run, then a word boundary
(end of string or a non-word character).  Taking the digit run maximal is
equivalent to the regex's backtracking search: any shorter run is followed by
a digit, which is a word character and so fails the boundary. -/
def e_digits_here : List Char → Bool
  | c :: rest =>
    if c = 'E' then
      let ds := rest.takeWhile Char.isDigit
      let after := rest.drop ds.length
      !ds.isEmpty &&
        (match after with
         | [] => true
         | d :: _ => !word_char d)
    else false
  | [] => false

/-- Models `re.search(r'\bE[0-9]+\b', value)`: somewhere in the list, at a
position preceded by nothing or by a non-word character (the `\b` before the
word character `E`), the pattern `E[0-9]+\b` matches.  `prev` carries the
character immediately before the current position. -/
def e_digits_search : Option Char → List Char → Bool
  | _, [] => false
  | prev, c :: rest =>
    ((match prev with
      | none => true
      | some p => !word_char p) && e_digits_here (c :: rest))
    || e_digits_search (some c) rest

/-! ## Tokenizer (`get_words`, source lines 90-119) -/

/-- Line 100: `re.sub('[^A-Za-z]', ' ', str(value))` — every character that is
not an ASCII letter becomes a single space. -/
def sub_non_letters (s : String) : List Char :=
  s.data.map (fun c => if c.isAlpha then c else ' ')

/-- Python's `str.split(' ')` on character lists: splits at every single
space, keeping empty pieces (so `"".split(' ') = ['']`). -/
def split_on_space : List Char → List (List Char)
  | [] => [[]]
  | c :: rest =>
    if c = ' ' then [] :: split_on_space rest
    else
      match split_on_space rest with
      | [] => [[c]]
      | t :: ts => (c :: t) :: ts

/-- Line 109: the start positions (offset by one) of the non-overlapping
matches of `[^A-Z][A-Z0-9]` found by `re.finditer`, i.e. the CamelCase split
boundaries `m.start() + 1`.  After a match covering positions `i, i+1` the
scan resumes at `i+2`, exactly as `finditer` does. -/
def camel_positions : Nat → List Char → List Nat
  | _, [] => []
  | _, [_] => []
  | i, a :: b :: rest =>
    if !a.isUpper && (b.isUpper || b.isDigit) then
      (i + 1) :: camel_positions (i + 2) rest
    else
      camel_positions (i + 1) (b :: rest)

/-- Line 112: `w[start:end]` slices between consecutive split positions. -/
def cut_at (w : List Char) (ps : List Nat) : List (List Char) :=
  (ps.zip ps.tail).map (fun p => (w.drop p.1).take (p.2 - p.1))

/-- Lines 107-112: split one raw token into CamelCase sub-words.  The split
positions are `[0] ++ boundaries ++ [len w]` and the token is cut between
consecutive positions. -/
def camel_split (w : List Char) : List (List Char) :=
  cut_at w (0 :: (camel_positions 0 w ++ [w.length]))

/-- Lines 116-118: keep a word iff it has length at least 2 and its first two
characters are not both uppercase (acronym suppression). -/
def keep_word : List Char → Bool
  | c0 :: c1 :: _ => !(c0.isUpper && c1.isUpper)
  | _ => false

/-- `get_words` (source lines 90-119): replace non-letters by spaces, split
into raw tokens skipping empty ones, split each token at CamelCase
boundaries, then drop short words and acronyms. -/
def get_words (value : String) : List String :=
  let tokens := split_on_space (sub_non_letters value)
  let words := tokens.foldr (fun w acc => if w = [] then acc else camel_split w ++ acc) []
  (words.filter keep_word).map String.mk

/-! ## Configuration and values -/

/-- The `spell_allow_words` configuration value: Python accepts either a
comma-separated string or a list of words (source lines 354-357). -/
inductive AllowWords where
  | ofStr : String → AllowWords
  | ofList : List String → AllowWords
deriving DecidableEq

/-- Python truthiness of the `spell_allow_words` value (`if allow_words:`). -/
def AllowWords.truthy : AllowWords → Bool
  | .ofStr s => !(s = "")
  | .ofList l => !l.isEmpty

/-- The word list the value denotes: a string is split on commas
(`allow_words.split(',')`), a list is used as is. -/
def AllowWords.toWords : AllowWords → List String
  | .ofStr s => s.splitOn ","
  | .ofList l => l

/-- The `ConfigMap` options read by this module.  A field is `Option` when the
code distinguishes "key absent" (`config.get` returning `None`) from a present
value; `spell_check_props` and `spell_check_text_only` are always read with
defaults `[]` / `False`, so absence and the default value coincide. -/
structure ConfigMap where
  spell_check_ignore_props : Option (List String)
  spell_check_props : List String
  spell_check_text_only : Bool
  spell_allowlist : Option String
  spell_allow_words : Option AllowWords

/-- `ConfigMap()`: the empty configuration with no keys set. -/
def ConfigMap.empty : ConfigMap :=
  ⟨none, [], false, none, none⟩

/-- `_DEFAULT_IGNORE_SPELL_PROPS` (source lines 67-87). -/
def default_ignore_spell_props : List String :=
  ["nameWithLanguage",
   "url", "descriptionUrl", "license", "sourceDataUrl", "cachedSourceDataUrl",
   "dataTransformationLogic",
   "geoJsonCoordinates", "geoJsonCoodinatesDP1", "geoJsonCoodinatesDP2",
   "geoJsonCoodinatesDP3",
   "keyString"]

/-- A Python value attached to a property: either an actual `str`, or a value
of any other type carrying its `str(...)` rendering.  The policy's
`isinstance(value, str)` test distinguishes the two. -/
inductive PyVal where
  | vstr : String → PyVal
  | vother : String → PyVal
deriving DecidableEq

/-- `str(value)` as used by `spell_check_pvs` (source line 220). -/
def str_of : PyVal → String
  | .vstr s => s
  | .vother r => r

/-- The characters of the identifier-namespace marker `"dc/"`. -/
def dc_slash_chars : List Char :=
  ['d', 'c', '/']

/-! ## Ignore policy (`should_ignore_spell_pv`, source lines 122-186) -/

/-- `should_ignore_spell_pv(prop, value, config=None)`.  The external
property-name validator `pv_utils.is_valid_property` is the parameter `vp`.
`config=None` substitutes an empty `ConfigMap` (lines 138-139).  The value
rules run only under `if value and isinstance(value, str)` (line 164): an
empty string is falsy, so it and every non-string skip them all. -/
def should_ignore_spell_pv (vp : String → Bool) (prop : String) (value : PyVal)
    (config : Option ConfigMap) : Bool :=
  let cfg := config.getD ConfigMap.empty
  if prop = "" then true
  else if prop.data.head? = some '#' then true
  else if vp prop = false then true
  else if prop ∈ cfg.spell_check_ignore_props.getD default_ignore_spell_props then true
  else if cfg.spell_check_props ≠ [] ∧ prop ∉ cfg.spell_check_props then true
  else
    match value with
    | PyVal.vstr v =>
      if v = "" then false
      else if has_substring dc_slash_chars v.data && v.data.all (fun c => !c.isUpper) then true
      else if v.data.contains '@' then true
      else if cfg.spell_check_text_only && !(v.data.head? = some '"' : Bool) then true
      else if e_digits_search none v.data then true
      else false
    | PyVal.vother _ => false

/-- The property-level portion of the policy: the first five checks of
`should_ignore_spell_pv` (lines 142-162), which do not look at the value. -/
def ignore_prop_level (vp : String → Bool) (prop : String)
    (config : Option ConfigMap) : Bool :=
  let cfg := config.getD ConfigMap.empty
  if prop = "" then true
  else if prop.data.head? = some '#' then true
  else if vp prop = false then true
  else if prop ∈ cfg.spell_check_ignore_props.getD default_ignore_spell_props then true
  else if cfg.spell_check_props ≠ [] ∧ prop ∉ cfg.spell_check_props then true
  else false

/-- A property-name validator accepting every name, for concrete instances. -/
def vp_all : String → Bool :=
  fun _ => true

/-- A configuration with only `spell_check_text_only` enabled. -/
def cfg_text_only : ConfigMap :=
  ⟨none, [], true, none, none⟩

/-! ## Vocabulary (`SpellChecker` as used through its narrow interface) -/

/-- The dictionary capability: the set of recognized words, modelled as a
list queried by membership. -/
structure SpellChecker where
  words : List String

/-- Whether a single word is recognized; `spell_checker.unknown([w])` is
truthy exactly when this is false. -/
def SpellChecker.knows (sc : SpellChecker) (w : String) : Bool :=
  sc.words.contains w

/-- `spell_checker.unknown(ws)`: the subset of `ws` not recognized. -/
def SpellChecker.unknown (sc : SpellChecker) (ws : List String) : List String :=
  ws.filter (fun w => !sc.knows w)

/-! ## Dictionary builder (`get_spell_checker`, source lines 337-365) -/

/-- `_DEFAULT_ALLOWLIST`: the allow-list file shipped next to the script.
The directory prefix is environment-dependent and irrelevant here because the
file matcher is an explicit parameter. -/
def default_allowlist : String :=
  "words_allowlist.txt"

/-- `get_spell_checker(config=None, counters=None)`.  `base` is the base
lexicon pre-seeded in `SpellChecker()`; `matching` models
`file_util.file_get_matching` (glob resolution); `file_words` models
`word_frequency.load_text_file` (the words a file contributes); `flag_config`
models `ConfigMap(get_default_spell_config())`, substituted when `config` is
`None`.  Counter updates are observational and omitted. -/
def get_spell_checker (base : List String) (matching : String → List String)
    (file_words : String → List String) (flag_config : ConfigMap)
    (config : Option ConfigMap) : SpellChecker :=
  let cfg := config.getD flag_config
  let allowlist_file := cfg.spell_allowlist.getD default_allowlist
  let allow_words := cfg.spell_allow_words.getD (AllowWords.ofList ["dcs", "dcid"])
  let from_files := (matching allowlist_file).foldl (fun acc f => acc ++ file_words f) []
  let inline_words := if allow_words.truthy then allow_words.toWords else []
  ⟨base ++ from_files ++ inline_words⟩

/-! ## Node checker (`spell_check_pvs`, source lines 189-237) -/

/-- `', '.join(...)` on a word list. -/
def comma_join : List String → String
  | [] => ""
  | [w] => w
  | w :: x :: rest => w ++ ", " ++ comma_join (x :: rest)

/-- Lexicographic (code-point) strict comparison of character lists: the
order Python's `sorted` uses on strings. -/
def str_lt_chars : List Char → List Char → Bool
  | [], [] => false
  | [], _ :: _ => true
  | _ :: _, [] => false
  | a :: as, b :: bs => if a = b then str_lt_chars as bs else decide (a < b)

/-- `w ≤ x` in the lexicographic string order. -/
def str_le (w x : String) : Bool :=
  !str_lt_chars x.data w.data

/-- Insertion step of `sorted(...)` under the lexicographic string order. -/
def insert_sorted (w : String) : List String → List String
  | [] => [w]
  | x :: xs => if str_le w x then w :: x :: xs else x :: insert_sorted w xs

/-- `sorted(...)`: ascending lexicographic insertion sort. -/
def sort_strings : List String → List String
  | [] => []
  | x :: xs => insert_sorted x (sort_strings xs)

/-- Lines 215-223: the candidate word set `pv_words` for one surviving
property/value pair.  `sns` models the external `strip_namespace`.  Python's
incremental set construction is modelled by appending both contributions and
deduplicating. -/
def pv_candidate_words (sns : String → String) (sc : SpellChecker)
    (cfg : ConfigMap) (prop : String) (value : PyVal) : List String :=
  let prop_part :=
    if cfg.spell_check_text_only then []
    else if sc.knows prop then [] else get_words prop
  let v := str_of value
  let value_part := if sc.knows v then [] else get_words (sns v)
  (prop_part ++ value_part).dedup

/-- The loop body of `spell_check_pvs` (lines 207-237) once a non-`None`
configuration is in hand: returns the per-property misspelling entries in
iteration order together with the node-level misspelled word set (Python's
`set.update` union modelled by appending; only membership is observed). -/
def spell_check_pvs_core (vp : String → Bool) (sns : String → String)
    (sc : SpellChecker) (cfg : ConfigMap) :
    List (String × PyVal) → List (String × String) × List String
  | [] => ([], [])
  | (prop, value) :: rest =>
    let tail := spell_check_pvs_core vp sns sc cfg rest
    if should_ignore_spell_pv vp prop value (some cfg) then tail
    else
      let pv_words := pv_candidate_words sns sc cfg prop value
      if pv_words = [] then tail
      else
        let error_words := sc.unknown pv_words
        if error_words = [] then tail
        else ((prop, comma_join (sort_strings error_words)) :: tail.1,
              error_words ++ tail.2)

/-- `spell_check_pvs(dcid, node, spell_checker, config=None, counters=None)`.
Unlike `should_ignore_spell_pv`, this function never substitutes a default
for `config=None`: the first property/value pair that survives the ignore
policy reaches `config.get('spell_check_text_only', False)` on `None` and the
call raises `AttributeError`, modelled as `none`.  If every pair is ignored
the loop completes and returns empty results. -/
def spell_check_pvs (vp : String → Bool) (sns : String → String)
    (sc : SpellChecker) (node : List (String × PyVal))
    (config : Option ConfigMap) :
    Option (List (String × String) × List String) :=
  match config with
  | some cfg => some (spell_check_pvs_core vp sns sc cfg node)
  | none =>
    if node.all (fun pv => should_ignore_spell_pv vp pv.1 pv.2 none) then
      some ([], [])
    else none

/-! ## Corpus-level aggregation (`spell_check_nodes`, source lines 240-280) -/

/-- `spell_check_nodes(nodes, config=None, counters=None, spell_checker=None)`:
substitutes an empty `ConfigMap` and a default spell checker when absent, then
records `misspelled_pvs` keyed by `dcid` for exactly the nodes whose
misspelled word set is non-empty. -/
def spell_check_nodes (vp : String → Bool) (sns : String → String)
    (base : List String) (matching : String → List String)
    (file_words : String → List String) (flag_config : ConfigMap)
    (nodes : List (String × List (String × PyVal)))
    (config : Option ConfigMap) (checker : Option SpellChecker) :
    List (String × List (String × String)) :=
  let cfg := config.getD ConfigMap.empty
  let sc := checker.getD (get_spell_checker base matching file_words flag_config (some cfg))
  nodes.filterMap (fun x =>
    let r := spell_check_pvs_core vp sns sc cfg x.2
    if r.2 = [] then none else some (x.1, r.1))

/-! ## Claim-side definitions for the ignore policy (C1) -/

/-- Modelled from the spec: the C1 claim's description of `is_exempt`, as an
ordered short-circuit disjunction, including its rule 6 which applies to
every string value. -/
def is_exempt_claim (vp : String → Bool) (prop : String) (value : PyVal)
    (config : Option ConfigMap) : Bool :=
  let cfg := config.getD ConfigMap.empty
  decide (prop = "") ||
  decide (prop.data.head? = some '#') ||
  !(vp prop) ||
  decide (prop ∈ cfg.spell_check_ignore_props.getD default_ignore_spell_props) ||
  (decide (cfg.spell_check_props ≠ []) && decide (prop ∉ cfg.spell_check_props)) ||
  (match value with
   | PyVal.vstr v =>
     (has_substring dc_slash_chars v.data && v.data.all (fun c => !c.isUpper)) ||
     v.data.contains '@' ||
     (cfg.spell_check_text_only && !(v.data.head? = some '"' : Bool)) ||
     e_digits_search none v.data
   | PyVal.vother _ => false)

/-- Modelled from the spec: the C1 claim amended as the code forces — rule 6
applies only to *non-empty* string values (the code's `if value and
isinstance(value, str)` truthiness guard). -/
def is_exempt_amended (vp : String → Bool) (prop : String) (value : PyVal)
    (config : Option ConfigMap) : Bool :=
  let cfg := config.getD ConfigMap.empty
  decide (prop = "") ||
  decide (prop.data.head? = some '#') ||
  !(vp prop) ||
  decide (prop ∈ cfg.spell_check_ignore_props.getD default_ignore_spell_props) ||
  (decide (cfg.spell_check_props ≠ []) && decide (prop ∉ cfg.spell_check_props)) ||
  (match value with
   | PyVal.vstr v =>
     !(decide (v = "")) &&
     ((has_substring dc_slash_chars v.data && v.data.all (fun c => !c.isUpper)) ||
      v.data.contains '@' ||
      (cfg.spell_check_text_only && !(v.data.head? = some '"' : Bool)) ||
      e_digits_search none v.data)
   | PyVal.vother _ => false)

/-! ## Lemmas about the tokenizer -/

theorem mem_words_foldr (tokens : List (List Char)) (x : List Char) :
    x ∈ tokens.foldr (fun w acc => if w = [] then acc else camel_split w ++ acc) [] ↔
      ∃ t, t ∈ tokens ∧ t ≠ [] ∧ x ∈ camel_split t := by
  induction tokens with
  | nil => simp
  | cons t ts ih =>
    by_cases h : t = [] <;>
      simp [h, ih, List.mem_append, or_and_right, exists_or]

theorem mem_get_words_iff (s : String) (w : String) :
    w ∈ get_words s ↔ ∃ u, keep_word u = true ∧ w = String.mk u ∧
      ∃ t, t ∈ split_on_space (sub_non_letters s) ∧ t ≠ [] ∧ u ∈ camel_split t := by
  simp only [get_words, List.mem_map, List.mem_filter, mem_words_foldr]
  constructor
  · rintro ⟨u, ⟨⟨t, ht, htne, hu⟩, hk⟩, rfl⟩
    exact ⟨u, hk, rfl, t, ht, htne, hu⟩
  · rintro ⟨u, hk, rfl, t, ht, htne, hu⟩
    exact ⟨u, ⟨⟨t, ht, htne, hu⟩, hk⟩, rfl⟩

theorem keep_word_shape (u : List Char) (h : keep_word u = true) :
    ∃ c0 c1 t, u = c0 :: c1 :: t ∧ (c0.isUpper = false ∨ c1.isUpper = false) := by
  match u with
  | [] => simp [keep_word] at h
  | [c] => simp [keep_word] at h
  | c0 :: c1 :: t =>
    refine ⟨c0, c1, t, rfl, ?_⟩
    simp only [keep_word, Bool.not_eq_true', Bool.and_eq_false_iff] at h
    rcases h with h | h
    · exact Or.inl h
    · exact Or.inr h

theorem mem_camel_split_subset (w : List Char) (p : List Char)
    (hp : p ∈ camel_split w) (c : Char) (hc : c ∈ p) : c ∈ w := by
  simp only [camel_split, cut_at, List.mem_map] at hp
  obtain ⟨q, _, rfl⟩ := hp
  exact List.drop_subset _ _ (List.take_subset _ _ hc)

theorem mem_split_on_space (l : List Char) (t : List Char)
    (ht : t ∈ split_on_space l) (c : Char) (hc : c ∈ t) : c ∈ l ∧ c ≠ ' ' := by
  induction l generalizing t with
  | nil =>
    simp only [split_on_space, List.mem_singleton] at ht
    subst ht
    simp at hc
  | cons a rest ih =>
    simp only [split_on_space] at ht
    by_cases ha : a = ' '
    · rw [if_pos ha] at ht
      rcases List.mem_cons.mp ht with rfl | ht
      · simp at hc
      · obtain ⟨h1, h2⟩ := ih t ht hc
        exact ⟨List.mem_cons_of_mem _ h1, h2⟩
    · rw [if_neg ha] at ht
      cases hr : split_on_space rest with
      | nil =>
        rw [hr] at ht
        simp only [List.mem_singleton] at ht
        subst ht
        simp only [List.mem_singleton] at hc
        subst hc
        exact ⟨List.mem_cons_self _ _, ha⟩
      | cons t0 ts =>
        rw [hr] at ht
        simp only [List.mem_cons] at ht
        rcases ht with rfl | ht
        · simp only [List.mem_cons] at hc
          rcases hc with rfl | hc
          · exact ⟨List.mem_cons_self _ _, ha⟩
          · have h0 : t0 ∈ split_on_space rest := by
              rw [hr]; exact List.mem_cons_self _ _
            obtain ⟨h1, h2⟩ := ih t0 h0 hc
            exact ⟨List.mem_cons_of_mem _ h1, h2⟩
        · have h0 : t ∈ split_on_space rest := by
            rw [hr]; exact List.mem_cons_of_mem _ ht
          obtain ⟨h1, h2⟩ := ih t h0 hc
          exact ⟨List.mem_cons_of_mem _ h1, h2⟩

theorem get_words_chars (s : String) (w : String) (hw : w ∈ get_words s)
    (c : Char) (hc : c ∈ w.data) : c.isAlpha = true := by
  rw [mem_get_words_iff] at hw
  obtain ⟨u, _, rfl, t, ht, _, hu⟩ := hw
  have hcu : c ∈ u := hc
  have hct := mem_camel_split_subset t u hu c hcu
  obtain ⟨h1, h2⟩ := mem_split_on_space _ t ht c hct
  simp only [sub_non_letters, List.mem_map] at h1
  obtain ⟨c0, _, hc0⟩ := h1
  by_cases hA : c0.isAlpha
  · rw [if_pos hA] at hc0; rwa [← hc0]
  · rw [if_neg hA] at hc0
    exact absurd hc0.symm h2

theorem get_words_length (s : String) (w : String) (hw : w ∈ get_words s) :
    2 ≤ w.length := by
  rw [mem_get_words_iff] at hw
  obtain ⟨u, hk, rfl, _⟩ := hw
  obtain ⟨c0, c1, t, rfl, _⟩ := keep_word_shape u hk
  simp [String.length]

theorem get_words_ne_empty (s : String) (w : String) (hw : w ∈ get_words s) :
    w ≠ "" := by
  intro h
  have := get_words_length s w hw
  rw [h] at this
  simp [String.length] at this

/-- C2: the tokenizer maps `"geoStateId"` to `["geo", "State", "Id"]` and
`"GDP"` to the empty list. -/
theorem C2_theorem :
    get_words "geoStateId" = ["geo", "State", "Id"] ∧ get_words "GDP" = [] := by
  constructor <;> decide

/-- C3: every word produced by `get_words` has length at least 2, and its
first two characters are not both uppercase. -/
theorem C3_theorem (s : String) (w : String) (hw : w ∈ get_words s) :
    2 ≤ w.length ∧
      ∃ c0 c1 t, w.data = c0 :: c1 :: t ∧
        (c0.isUpper = false ∨ c1.isUpper = false) := by
  refine ⟨get_words_length s w hw, ?_⟩
  rw [mem_get_words_iff] at hw
  obtain ⟨u, hk, rfl, _⟩ := hw
  obtain ⟨c0, c1, t, rfl, hcase⟩ := keep_word_shape u hk
  exact ⟨c0, c1, t, rfl, hcase⟩

theorem C3_witness :
    ("geo" ∈ get_words "geoStateId") ∧
      (2 ≤ ("geo" : String).length ∧
        ∃ c0 c1 t, ("geo" : String).data = c0 :: c1 :: t ∧
          (c0.isUpper = false ∨ c1.isUpper = false)) :=
  ⟨by decide, C3_theorem "geoStateId" "geo" (by decide)⟩

theorem alpha_not_digit (c : Char) (h : c.isAlpha = true) : c.isDigit = false := by
  simp only [Char.isAlpha, Char.isUpper, Char.isLower, Bool.or_eq_true, Bool.and_eq_true,
    decide_eq_true_eq, ge_iff_le] at h
  simp only [Char.isDigit, ge_iff_le]
  have hn : 65 ≤ c.val.toNat := by
    rcases h with ⟨h1, _⟩ | ⟨h1, _⟩
    · exact h1
    · have h97 : (97 : Nat) ≤ c.val.toNat := h1
      omega
  have hd : ¬ c.val ≤ (57 : UInt32) := by
    intro hle
    have h57 : c.val.toNat ≤ (57 : Nat) := hle
    omega
  simp [decide_eq_false hd]

/-- C10: every word produced by `get_words` consists only of ASCII letters;
in particular no emitted token contains a digit, so the digit alternative of
the CamelCase boundary pattern never contributes. -/
theorem C10_theorem (s : String) (w : String) (hw : w ∈ get_words s) :
    w.data.all (fun c => c.isAlpha) = true ∧
      w.data.all (fun c => !c.isDigit) = true := by
  constructor
  · rw [List.all_eq_true]
    intro c hc
    exact get_words_chars s w hw c hc
  · rw [List.all_eq_true]
    intro c hc
    simp only [Bool.not_eq_true']
    exact alpha_not_digit c (get_words_chars s w hw c hc)

theorem C10_witness :
    ("geo" ∈ get_words "geoStateId") ∧
      (("geo" : String).data.all (fun c => c.isAlpha) = true ∧
        ("geo" : String).data.all (fun c => !c.isDigit) = true) :=
  ⟨by decide, C10_theorem "geoStateId" "geo" (by decide)⟩

/-! ## The ignore policy claims -/

theorem ite_true_or (c : Prop) [Decidable c] (e : Bool) :
    (if c then true else e) = (decide c || e) := by
  by_cases h : c <;> simp [h]

theorem ite_false_and (c : Prop) [Decidable c] (e : Bool) :
    (if c then false else e) = (!decide c && e) := by
  by_cases h : c <;> simp [h]

theorem decide_bool_eq_false (b : Bool) : decide (b = false) = !b := by
  cases b <;> simp

/-- C9: an empty-string value (falsy) and a non-string value both skip every
value-level exemption rule of `should_ignore_spell_pv`: the outcome is the
property-level decision alone.  In particular, with `spell_check_text_only`
enabled, a non-exempt property with an empty-string value is still not exempt
even though the value does not begin with a double quote; the first-character
access is guarded by the truthiness test, so the function is total. -/
theorem C9_theorem (vp : String → Bool) (prop : String) (r : String)
    (config : Option ConfigMap) :
    should_ignore_spell_pv vp prop (PyVal.vstr "") config =
        ignore_prop_level vp prop config ∧
      should_ignore_spell_pv vp prop (PyVal.vother r) config =
        ignore_prop_level vp prop config ∧
      should_ignore_spell_pv vp_all "name" (PyVal.vstr "") (some cfg_text_only) = false := by
  exact ⟨rfl, rfl, rfl⟩

/-- C1 counterexample: for the valid, non-ignored property `"name"` with the
empty-string value under `spell_check_text_only`, the claim's rule 6c fires
(the value is a string and does not begin with a double quote) so the claimed
exemption condition holds, but the code returns `False`: the truthiness guard
`if value and isinstance(value, str)` skips rule 6 for the empty string. -/
theorem C1_counterexample :
    is_exempt_claim vp_all "name" (PyVal.vstr "") (some cfg_text_only) = true ∧
      should_ignore_spell_pv vp_all "name" (PyVal.vstr "") (some cfg_text_only) = false := by
  exact ⟨rfl, rfl⟩

/-- C1 (amended): `should_ignore_spell_pv` returns true iff the claim's
ordered disjunction holds, with rule 6 restricted to *non-empty* string
values. -/
theorem C1_theorem (vp : String → Bool) (prop : String) (value : PyVal)
    (config : Option ConfigMap) :
    should_ignore_spell_pv vp prop value config =
      is_exempt_amended vp prop value config := by
  cases value with
  | vstr v =>
    simp only [should_ignore_spell_pv, is_exempt_amended, ite_true_or, ite_false_and,
      decide_bool_eq_false, ne_eq, Bool.decide_and, Bool.decide_coe, decide_not,
      Bool.or_assoc, Bool.and_assoc, Bool.or_false]
  | vother r =>
    simp only [should_ignore_spell_pv, is_exempt_amended, ite_true_or, ite_false_and,
      decide_bool_eq_false, ne_eq, Bool.decide_and, Bool.decide_coe, decide_not,
      Bool.or_assoc, Bool.and_assoc, Bool.or_false]

/-- C6 counterexample: with `spell_check_text_only` enabled, the empty-string
value on a valid, non-ignored property survives the exemption policy even
though it does not begin with a double quote. -/
theorem C6_counterexample :
    should_ignore_spell_pv vp_all "name" (PyVal.vstr "") (some cfg_text_only) = false ∧
      ("" : String).data.head? ≠ some '"' := by
  exact ⟨rfl, by simp⟩

/-- C6 (amended): with `spell_check_text_only` enabled, the candidate word
set built by `spell_check_pvs` never queries or tokenizes the property name —
it depends only on the value — and every *non-empty* string value that
survives the exemption policy begins with a double quote (the empty string
also survives, but contributes no checkable words). -/
theorem C6_theorem (sns : String → String) (sc : SpellChecker) (cfg : ConfigMap)
    (h : cfg.spell_check_text_only = true) :
    (∀ prop value, pv_candidate_words sns sc cfg prop value =
        (if sc.knows (str_of value) then [] else get_words (sns (str_of value))).dedup) ∧
      (∀ (vp : String → Bool) (prop v : String),
        should_ignore_spell_pv vp prop (PyVal.vstr v) (some cfg) = false →
          v = "" ∨ v.data.head? = some '"') := by
  constructor
  · intro prop value
    simp [pv_candidate_words, h]
  · intro vp prop v hfalse
    by_cases hv : v = ""
    · exact Or.inl hv
    · refine Or.inr ?_
      simp only [should_ignore_spell_pv] at hfalse
      split_ifs at hfalse with h1 h2 h3 h4 h5 h6 h7 h8 h9
      all_goals simp_all
  

theorem C6_witness :
    cfg_text_only.spell_check_text_only = true ∧
      ((∀ prop value, pv_candidate_words id ⟨[]⟩ cfg_text_only prop value =
          (if SpellChecker.knows ⟨[]⟩ (str_of value) then []
           else get_words (id (str_of value))).dedup) ∧
        (∀ (vp : String → Bool) (prop v : String),
          should_ignore_spell_pv vp prop (PyVal.vstr v) (some cfg_text_only) = false →
            v = "" ∨ v.data.head? = some '"')) :=
  ⟨rfl, C6_theorem id ⟨[]⟩ cfg_text_only rfl⟩

/-! ## Lemmas about sorting, joining and candidate words -/

theorem mem_insert_sorted (w a : String) (l : List String) :
    a ∈ insert_sorted w l ↔ a = w ∨ a ∈ l := by
  induction l with
  | nil => simp [insert_sorted]
  | cons x xs ih =>
    simp only [insert_sorted]
    split_ifs with h
    · simp [List.mem_cons]
    · simp only [List.mem_cons, ih]
      tauto

theorem mem_sort_strings (a : String) (l : List String) :
    a ∈ sort_strings l ↔ a ∈ l := by
  induction l with
  | nil => simp [sort_strings]
  | cons x xs ih => simp [sort_strings, mem_insert_sorted, ih]

theorem insert_sorted_ne_nil (w : String) (l : List String) :
    insert_sorted w l ≠ [] := by
  cases l with
  | nil => simp [insert_sorted]
  | cons x xs =>
    simp only [insert_sorted]
    split_ifs <;> simp

theorem sort_strings_ne_nil (l : List String) (h : l ≠ []) :
    sort_strings l ≠ [] := by
  cases l with
  | nil => exact absurd rfl h
  | cons x xs => exact insert_sorted_ne_nil x (sort_strings xs)

theorem comma_join_ne_empty (l : List String) (hne : l ≠ [])
    (h : ∀ w ∈ l, w ≠ "") : comma_join l ≠ "" := by
  match l with
  | [] => exact absurd rfl hne
  | [w] => simpa [comma_join] using h w (by simp)
  | w :: x :: rest =>
    simp only [comma_join]
    intro hc
    have hlen := congrArg String.length hc
    rw [String.length_append, String.length_append] at hlen
    have h2 : (", " : String).length = 2 := rfl
    have h0 : ("" : String).length = 0 := rfl
    rw [h2, h0] at hlen
    omega

theorem mem_pv_candidate_words (sns : String → String) (sc : SpellChecker)
    (cfg : ConfigMap) (prop : String) (value : PyVal) (x : String)
    (hx : x ∈ pv_candidate_words sns sc cfg prop value) :
    x ∈ get_words prop ∨ x ∈ get_words (sns (str_of value)) := by
  simp only [pv_candidate_words, List.mem_dedup, List.mem_append] at hx
  rcases hx with hx | hx
  · split_ifs at hx with h1 h2
    · simp at hx
    · simp at hx
    · exact Or.inl hx
  · split_ifs at hx with h1
    · simp at hx
    · exact Or.inr hx

theorem mem_unknown_subset (sc : SpellChecker) (ws : List String) (x : String)
    (hx : x ∈ sc.unknown ws) : x ∈ ws :=
  (List.mem_filter.mp hx).1

theorem unknown_word_ne_empty (sns : String → String) (sc : SpellChecker)
    (cfg : ConfigMap) (prop : String) (value : PyVal) (x : String)
    (hx : x ∈ sc.unknown (pv_candidate_words sns sc cfg prop value)) : x ≠ "" := by
  rcases mem_pv_candidate_words sns sc cfg prop value x
      (mem_unknown_subset sc _ x hx) with h | h
  · exact get_words_ne_empty _ x h
  · exact get_words_ne_empty _ x h

theorem core_entries (vp : String → Bool) (sns : String → String)
    (sc : SpellChecker) (cfg : ConfigMap) (node : List (String × PyVal))
    (prop e : String)
    (hmem : (prop, e) ∈ (spell_check_pvs_core vp sns sc cfg node).1) :
    e ≠ "" ∧ ∃ value, (prop, value) ∈ node ∧
      sc.unknown (pv_candidate_words sns sc cfg prop value) ≠ [] ∧
      e = comma_join (sort_strings (sc.unknown (pv_candidate_words sns sc cfg prop value))) := by
  induction node with
  | nil => simp [spell_check_pvs_core] at hmem
  | cons pv rest ih =>
    obtain ⟨p, value⟩ := pv
    simp only [spell_check_pvs_core] at hmem
    split_ifs at hmem with h1 h2 h3
    · obtain ⟨hne, v, hv, hu, he⟩ := ih hmem
      exact ⟨hne, v, List.mem_cons_of_mem _ hv, hu, he⟩
    · obtain ⟨hne, v, hv, hu, he⟩ := ih hmem
      exact ⟨hne, v, List.mem_cons_of_mem _ hv, hu, he⟩
    · obtain ⟨hne, v, hv, hu, he⟩ := ih hmem
      exact ⟨hne, v, List.mem_cons_of_mem _ hv, hu, he⟩
    · rcases List.mem_cons.mp hmem with heq | hmem
      · have h1 : prop = p := congrArg Prod.fst heq
        have h2 : e = comma_join (sort_strings
            (sc.unknown (pv_candidate_words sns sc cfg p value))) := congrArg Prod.snd heq
        subst h1
        refine ⟨?_, value, List.mem_cons_self _ _, h3, h2⟩
        rw [h2]
        refine comma_join_ne_empty _ (sort_strings_ne_nil _ h3) ?_
        intro w hw
        exact unknown_word_ne_empty sns sc cfg prop value w ((mem_sort_strings w _).mp hw)
      · obtain ⟨hne, v, hv, hu, he⟩ := ih hmem
        exact ⟨hne, v, List.mem_cons_of_mem _ hv, hu, he⟩

/-- C4: every entry of the per-property error map returned by
`spell_check_pvs` is, for some value of that property in the node, the
comma-joined sorted list of the unrecognized candidate words, that list is
non-empty, and the stored string is never empty. -/
theorem C4_theorem (vp : String → Bool) (sns : String → String)
    (sc : SpellChecker) (cfg : ConfigMap) (node : List (String × PyVal))
    (prop e : String) (res : List (String × String) × List String)
    (hres : spell_check_pvs vp sns sc node (some cfg) = some res)
    (hmem : (prop, e) ∈ res.1) :
    e ≠ "" ∧ ∃ value, (prop, value) ∈ node ∧
      sc.unknown (pv_candidate_words sns sc cfg prop value) ≠ [] ∧
      e = comma_join (sort_strings (sc.unknown (pv_candidate_words sns sc cfg prop value))) := by
  have hres' : res = spell_check_pvs_core vp sns sc cfg node := by
    have := hres.symm
    simpa [spell_check_pvs] using this
  rw [hres'] at hmem
  exact core_entries vp sns sc cfg node prop e hmem

theorem C4_witness :
    (spell_check_pvs vp_all id ⟨[]⟩ [("name", PyVal.vstr "Populaton")] (some ConfigMap.empty) =
        some (spell_check_pvs_core vp_all id ⟨[]⟩ ConfigMap.empty [("name", PyVal.vstr "Populaton")])) ∧
      (("name", "Populaton, name") ∈
        (spell_check_pvs_core vp_all id ⟨[]⟩ ConfigMap.empty [("name", PyVal.vstr "Populaton")]).1) ∧
      ("Populaton, name" ≠ "" ∧ ∃ value, ("name", value) ∈ [("name", PyVal.vstr "Populaton")] ∧
        SpellChecker.unknown ⟨[]⟩ (pv_candidate_words id ⟨[]⟩ ConfigMap.empty "name" value) ≠ [] ∧
        "Populaton, name" =
          comma_join (sort_strings
            (SpellChecker.unknown ⟨[]⟩ (pv_candidate_words id ⟨[]⟩ ConfigMap.empty "name" value)))) :=
  ⟨rfl, by decide,
    C4_theorem vp_all id ⟨[]⟩ ConfigMap.empty [("name", PyVal.vstr "Populaton")]
      "name" "Populaton, name" _ rfl (by decide)⟩

/-! ## Node aggregation (C5) -/

theorem core_fst_nil_iff (vp : String → Bool) (sns : String → String)
    (sc : SpellChecker) (cfg : ConfigMap) (node : List (String × PyVal)) :
    ((spell_check_pvs_core vp sns sc cfg node).1 = [] ↔
      (spell_check_pvs_core vp sns sc cfg node).2 = []) := by
  induction node with
  | nil => simp [spell_check_pvs_core]
  | cons pv rest ih =>
    obtain ⟨p, value⟩ := pv
    simp only [spell_check_pvs_core]
    split_ifs with h1 h2 h3
    · exact ih
    · exact ih
    · exact ih
    · simp [h3, List.append_eq_nil]

/-- C5: a node key appears in the error collection returned by
`spell_check_nodes` iff one of its nodes has a property with a non-empty
error entry — equivalently, iff its node-level misspelled-word set is
non-empty; nodes with zero misspelled words are absent. -/
theorem C5_theorem (vp : String → Bool) (sns : String → String)
    (base : List String) (matching : String → List String)
    (file_words : String → List String) (flag_config : ConfigMap)
    (nodes : List (String × List (String × PyVal)))
    (config : Option ConfigMap) (checker : Option SpellChecker) (dcid : String) :
    ((∃ errs, (dcid, errs) ∈
        spell_check_nodes vp sns base matching file_words flag_config nodes config checker) ↔
      (∃ node, (dcid, node) ∈ nodes ∧
        (spell_check_pvs_core vp sns
          (checker.getD (get_spell_checker base matching file_words flag_config
            (some (config.getD ConfigMap.empty))))
          (config.getD ConfigMap.empty) node).1 ≠ [])) ∧
    ((∃ errs, (dcid, errs) ∈
        spell_check_nodes vp sns base matching file_words flag_config nodes config checker) ↔
      (∃ node, (dcid, node) ∈ nodes ∧
        (spell_check_pvs_core vp sns
          (checker.getD (get_spell_checker base matching file_words flag_config
            (some (config.getD ConfigMap.empty))))
          (config.getD ConfigMap.empty) node).2 ≠ [])) := by
  have main : ∀ d : String,
      ((∃ errs, (d, errs) ∈
          spell_check_nodes vp sns base matching file_words flag_config nodes config checker) ↔
        (∃ node, (d, node) ∈ nodes ∧
          (spell_check_pvs_core vp sns
            (checker.getD (get_spell_checker base matching file_words flag_config
              (some (config.getD ConfigMap.empty))))
            (config.getD ConfigMap.empty) node).2 ≠ [])) := by
    intro d
    simp only [spell_check_nodes, List.mem_filterMap]
    constructor
    · rintro ⟨errs, ⟨d', node⟩, hmem, hf⟩
      dsimp only at hf
      split_ifs at hf with h2
      have hpair := Option.some.inj hf
      have hd : d' = d := congrArg Prod.fst hpair
      exact ⟨node, hd ▸ hmem, h2⟩
    · rintro ⟨node, hmem, hne⟩
      refine ⟨(spell_check_pvs_core vp sns
          (checker.getD (get_spell_checker base matching file_words flag_config
            (some (config.getD ConfigMap.empty))))
          (config.getD ConfigMap.empty) node).1, ⟨d, node⟩, hmem, ?_⟩
      dsimp only
      rw [if_neg hne]
  refine ⟨?_, main dcid⟩
  rw [main dcid]
  constructor
  · rintro ⟨node, hmem, hne⟩
    refine ⟨node, hmem, fun h1 => hne ((core_fst_nil_iff vp sns _ _ node).mp h1)⟩
  · rintro ⟨node, hmem, hne⟩
    refine ⟨node, hmem, fun h2 => hne ((core_fst_nil_iff vp sns _ _ node).mpr h2)⟩

/-! ## Dictionary builder (C7) and the `config=None` hazard (C8) -/

/-- C7 counterexample: with an empty base lexicon, a glob matching zero
files, and nothing configured, `get_spell_checker` still loads the default
inline allow-words `['dcs', 'dcid']`, so the returned vocabulary is not the
unmodified base. -/
theorem C7_counterexample :
    (get_spell_checker [] (fun _ => []) (fun _ => []) ConfigMap.empty
        (some ConfigMap.empty)).words = ["dcs", "dcid"] ∧
      "dcs" ∉ ([] : List String) := by
  exact ⟨rfl, by simp⟩

/-- C7 (amended): when the configured allow-list path resolves to zero
matching files, `get_spell_checker` returns the base vocabulary extended
only by the inline `spell_allow_words` (defaulting to `['dcs', 'dcid']` when
unset); in particular the base is unmodified exactly when the inline word
value is falsy. -/
theorem C7_theorem (base : List String) (matching : String → List String)
    (file_words : String → List String) (flag_config : ConfigMap) (cfg : ConfigMap)
    (h : matching (cfg.spell_allowlist.getD default_allowlist) = []) :
    (get_spell_checker base matching file_words flag_config (some cfg)).words =
      base ++ (if (cfg.spell_allow_words.getD (AllowWords.ofList ["dcs", "dcid"])).truthy then
        (cfg.spell_allow_words.getD (AllowWords.ofList ["dcs", "dcid"])).toWords
      else []) := by
  simp [get_spell_checker, h]

theorem C7_witness :
    ((fun _ => ([] : List String)) (ConfigMap.empty.spell_allowlist.getD default_allowlist) = []) ∧
      (get_spell_checker ["base"] (fun _ => []) (fun _ => []) ConfigMap.empty
          (some ConfigMap.empty)).words =
        ["base"] ++ (if (ConfigMap.empty.spell_allow_words.getD
            (AllowWords.ofList ["dcs", "dcid"])).truthy then
          (ConfigMap.empty.spell_allow_words.getD (AllowWords.ofList ["dcs", "dcid"])).toWords
        else []) :=
  ⟨rfl, C7_theorem ["base"] (fun _ => []) (fun _ => []) ConfigMap.empty ConfigMap.empty rfl⟩

/-- C8: calling `spell_check_pvs` with its declared default `config=None` on
a node containing at least one non-exempt property/value pair fails (the
`config.get` attribute access on `None` raises) instead of behaving like the
empty default configuration, which itself never fails — a non-`None` config
is an undeclared precondition — even though `should_ignore_spell_pv` treats
`None` exactly as the default `ConfigMap()`. -/
theorem C8_theorem (vp : String → Bool) (sns : String → String)
    (sc : SpellChecker) (node : List (String × PyVal)) (prop : String) (value : PyVal)
    (hmem : (prop, value) ∈ node)
    (hsurv : should_ignore_spell_pv vp prop value none = false) :
    spell_check_pvs vp sns sc node none = none ∧
      spell_check_pvs vp sns sc node (some ConfigMap.empty) ≠ none ∧
      (∀ (p : String) (v : PyVal),
        should_ignore_spell_pv vp p v none = should_ignore_spell_pv vp p v (some ConfigMap.empty)) := by
  refine ⟨?_, by simp [spell_check_pvs], fun p v => rfl⟩
  simp only [spell_check_pvs]
  rw [if_neg]
  intro hall
  rw [List.all_eq_true] at hall
  have h2 := hall (prop, value) hmem
  rw [hsurv] at h2
  exact absurd h2 (by simp)

theorem C8_witness :
    (("name", PyVal.vstr "Populaton") ∈ [("name", PyVal.vstr "Populaton")] ∧
        should_ignore_spell_pv vp_all "name" (PyVal.vstr "Populaton") none = false) ∧
      (spell_check_pvs vp_all id ⟨[]⟩ [("name", PyVal.vstr "Populaton")] none = none ∧
        spell_check_pvs vp_all id ⟨[]⟩ [("name", PyVal.vstr "Populaton")]
            (some ConfigMap.empty) ≠ none ∧
        (∀ (p : String) (v : PyVal),
          should_ignore_spell_pv vp_all p v none =
            should_ignore_spell_pv vp_all p v (some ConfigMap.empty))) :=
  ⟨⟨List.mem_cons_self _ _, rfl⟩,
    C8_theorem vp_all id ⟨[]⟩ [("name", PyVal.vstr "Populaton")] "name"
      (PyVal.vstr "Populaton") (List.mem_cons_self _ _) rfl⟩
